import Mathlib

/-!
Verification of the HTML-quiz extraction / CSV-export / domain-suggestion
core of the `udemy_test_maker` repository, as a shallow embedding in Lean.

The embedding follows the two Python modules the claims cite:
  * the converter script (`clean_text`, `determine_correct_answers`,
    `extract_question_data`, `convert_html_to_csv`);
  * `tests_app/utils/csv_generator.py` and
    `tests_app/utils/domain_suggester.py`.
Strings are modelled as `List Char` at the algorithmic level, Python floats
as `ℚ`, and the parsed-HTML question element as a record holding exactly the
attributes the code queries.
-/

/-- Python's `\s` / `str.strip` whitespace, restricted to the ASCII range the
inputs use. -/
def isPySpace (c : Char) : Bool :=
  c = ' ' || c = '\t' || c = '\n' || c = '\r' || c = '\x0b' || c = '\x0c'

/-- An ASCII letter, the set `[A-Z]` matches under `re.IGNORECASE`. -/
def isAsciiAlpha (c : Char) : Bool :=
  ('A' ≤ c && c ≤ 'Z') || ('a' ≤ c && c ≤ 'z')

/-- Case-insensitive character comparison, as `re.IGNORECASE` applies to a
literal pattern character. -/
def lowerEq (p c : Char) : Bool :=
  p.toLower = c.toLower

/-- Boolean list-prefix test (`pat` begins `l`). -/
def pfx : List Char → List Char → Bool
  | [], _ => true
  | _ :: _, [] => false
  | a :: as, b :: bs => if a = b then pfx as bs else false

/-- Boolean substring test: Python's `pat in s`. -/
def isSubstr (pat : List Char) : List Char → Bool
  | [] => pat.isEmpty
  | c :: rest => pfx pat (c :: rest) || isSubstr pat rest

/-- `str.lstrip()` over the model: drop leading whitespace. -/
def dropLeadingWS (cs : List Char) : List Char :=
  cs.dropWhile isPySpace

/-- `str.rstrip()` over the model: drop trailing whitespace. -/
def dropTrailingWS : List Char → List Char
  | [] => []
  | c :: rest =>
    let r := dropTrailingWS rest
    if r = [] && isPySpace c then [] else c :: r

/-- Python `str.strip()`: remove leading and trailing whitespace. -/
def pyStrip (cs : List Char) : List Char :=
  dropTrailingWS (dropLeadingWS cs)

/-- `re.sub(r'\s+', ' ', ·)`: every maximal whitespace run becomes one
ordinary space (the run's characters are dropped, a single `' '` is kept at
the run's end). -/
def collapseWS : List Char → List Char
  | [] => []
  | [c] => if isPySpace c then [' '] else [c]
  | c :: d :: rest =>
    if isPySpace c then
      if isPySpace d then collapseWS (d :: rest)
      else ' ' :: collapseWS (d :: rest)
    else c :: collapseWS (d :: rest)

/-- The literal `&nbsp;` entity the converter replaces. -/
def nbspL : List Char := ['&', 'n', 'b', 's', 'p', ';']

/-- One-pass matcher for `str.replace('&nbsp;', ' ')` (left-to-right,
non-overlapping). `pend` holds the pattern characters matched so far, `rem`
the pattern characters still awaited; as `'&'` occurs only at the pattern's
head, a mismatch restarts at the current character alone. -/
def rnbAux (pend : List Char) (rem : List Char) : List Char → List Char
  | [] => pend
  | c :: rest =>
    match rem with
    | [] => pend ++ c :: rest
    | r :: rem2 =>
      if c = r then
        if rem2 = [] then ' ' :: rnbAux [] nbspL rest
        else rnbAux (pend ++ [c]) rem2 rest
      else if c = '&' then pend ++ rnbAux ['&'] ['n', 'b', 's', 'p', ';'] rest
      else pend ++ c :: rnbAux [] nbspL rest

/-- Python `text.replace('&nbsp;', ' ')`. -/
def replaceNbsp (cs : List Char) : List Char :=
  rnbAux [] nbspL cs

/-- `clean_text` of the converter: falsy input gives `""`; otherwise strip,
collapse whitespace runs, then replace the `&nbsp;` entity — in the order
the source performs these steps. -/
def cleanText (text : String) : String :=
  if text = "" then ""
  else (replaceNbsp (collapseWS (pyStrip text.toList))).asString

/-- `clean_text` applied to an optional (possibly `None`) string. -/
def cleanTextOpt : Option String → String
  | none => ""
  | some t => cleanText t

/-- A whitespace run is already collapsed: every whitespace character is an
ordinary space and no two adjacent characters are both whitespace. -/
def isCollapsed : List Char → Bool
  | [] => true
  | [c] => !isPySpace c || c = ' '
  | c :: d :: rest =>
    (!isPySpace c || (c = ' ' && !isPySpace d)) && isCollapsed (d :: rest)

/-! ## Correct-answer patterns of `determine_correct_answers`

The three patterns tried, in order, against the explanation text under
`re.IGNORECASE` (`re.search`, leftmost occurrence, greedy quantifiers):

  1. `Correct answers?:\s*([A-Z](?:\s*,\s*[A-Z])*)`
  2. `Correct answers?:\s*([A-Z](?:\s+and\s+[A-Z])*)`
  3. `Correct answers?:\s*([A-Z](?:\s*[A-Z])*)`

Each matcher below returns the captured group (the letter span) of the
leftmost match, or `none`. As none of `\s`, `,`, `and`, `[A-Z]` overlap,
the greedy backtracking search is deterministic and is realised by
single-pass state machines. -/

/-- Match a literal pattern case-insensitively at the head of the text,
returning the rest of the text. -/
def matchLitCI : List Char → List Char → Option (List Char)
  | [], cs => some cs
  | _ :: _, [] => none
  | p :: ps, c :: cs => if lowerEq p c then matchLitCI ps cs else none

/-- Match `Correct answers?:` case-insensitively at the head of the text
(the `s` is optional), returning the rest. -/
def matchPrefixCA (cs : List Char) : Option (List Char) :=
  match matchLitCI "correct answer".toList cs with
  | none => none
  | some rest =>
    match rest with
    | [] => none
    | c :: rest2 =>
      if lowerEq 's' c then
        match rest2 with
        | ':' :: rest3 => some rest3
        | _ => none
      else if c = ':' then some rest2
      else none

/-- Greedy consumption of `(?:\s*,\s*[A-Z])*` after the group's first
letter. `beforeComma` is true while scanning the `\s*` before the `,`;
`pend` buffers the characters of the iteration in progress, which are
emitted only when the iteration completes at a letter. -/
def g1Loop (beforeComma : Bool) (pend : List Char) : List Char → List Char
  | [] => []
  | c :: rest =>
    if beforeComma then
      if isPySpace c then g1Loop true (pend ++ [c]) rest
      else if c = ',' then g1Loop false (pend ++ [c]) rest
      else []
    else
      if isPySpace c then g1Loop false (pend ++ [c]) rest
      else if isAsciiAlpha c then pend ++ [c] ++ g1Loop true [] rest
      else []

/-- Greedy consumption of `(?:\s+and\s+[A-Z])*` after the group's first
letter; `st` walks the states space⁺ – a – n – d – space⁺ – letter. -/
def g2Loop (st : Nat) (pend : List Char) : List Char → List Char
  | [] => []
  | c :: rest =>
    match st with
    | 0 => if isPySpace c then g2Loop 1 (pend ++ [c]) rest else []
    | 1 =>
      if isPySpace c then g2Loop 1 (pend ++ [c]) rest
      else if lowerEq 'a' c then g2Loop 2 (pend ++ [c]) rest
      else []
    | 2 => if lowerEq 'n' c then g2Loop 3 (pend ++ [c]) rest else []
    | 3 => if lowerEq 'd' c then g2Loop 4 (pend ++ [c]) rest else []
    | 4 => if isPySpace c then g2Loop 5 (pend ++ [c]) rest else []
    | _ =>
      if isPySpace c then g2Loop 5 (pend ++ [c]) rest
      else if isAsciiAlpha c then pend ++ [c] ++ g2Loop 0 [] rest
      else []

/-- Greedy consumption of `(?:\s*[A-Z])*` after the group's first letter. -/
def g3Loop (pend : List Char) : List Char → List Char
  | [] => []
  | c :: rest =>
    if isPySpace c then g3Loop (pend ++ [c]) rest
    else if isAsciiAlpha c then pend ++ [c] ++ g3Loop [] rest
    else []

/-- After `Correct answers?:`, the common part `\s*[A-Z]` of all three
groups; `loop` finishes the group and the captured span is returned. -/
def matchGroup (loop : List Char → List Char) (cs : List Char) :
    Option (List Char) :=
  match matchPrefixCA cs with
  | none => none
  | some rest =>
    match rest.dropWhile isPySpace with
    | [] => none
    | c :: r3 => if isAsciiAlpha c then some (c :: loop r3) else none

/-- Pattern 1's captured group at the head of the text. -/
def matchG1 (cs : List Char) : Option (List Char) :=
  matchGroup (g1Loop true []) cs

/-- Pattern 2's captured group at the head of the text. -/
def matchG2 (cs : List Char) : Option (List Char) :=
  matchGroup (g2Loop 0 []) cs

/-- Pattern 3's captured group at the head of the text. -/
def matchG3 (cs : List Char) : Option (List Char) :=
  matchGroup (g3Loop []) cs

/-- `re.search`: the match at the leftmost position where the pattern
matches, scanning positions left to right. -/
def searchSpan (g : List Char → Option (List Char)) :
    List Char → Option (List Char)
  | [] => g []
  | c :: rest =>
    match g (c :: rest) with
    | some span => some span
    | none => searchSpan g rest

/-- `re.findall(r'[A-Z]', answers_str.upper())`: uppercase the span, keep
the uppercase letters. -/
def extractLettersUpper (span : List Char) : List Char :=
  (span.map Char.toUpper).filter (fun c => 'A' ≤ c && c ≤ 'Z')

/-- `ord(letter) - ord('A') + 1`. -/
def letterPos (c : Char) : Int :=
  (c.toNat : Int) - ('A'.toNat : Int) + 1

/-- `if number not in correct_answers: correct_answers.append(number)`. -/
def addUnique (acc : List Int) (x : Int) : List Int :=
  if x ∈ acc then acc else acc ++ [x]

/-- The loop body for one pattern: no match leaves the accumulator; a match
appends each letter's position, skipping duplicates. -/
def runPattern (acc : List Int) : Option (List Char) → List Int
  | none => acc
  | some span => (extractLettersUpper span).foldl (fun a c => addUnique a (letterPos c)) acc

/-- Lines 62–89 of the converter: try the three patterns in order against
the explanation text and stop at the first one that produced answers. -/
def resolveMultiRaw (cs : List Char) : List Int :=
  let a1 := runPattern [] (searchSpan matchG1 cs)
  if a1 ≠ [] then a1
  else
    let a2 := runPattern a1 (searchSpan matchG2 cs)
    if a2 ≠ [] then a2
    else runPattern a2 (searchSpan matchG3 cs)

/-! ## The parsed question element and `determine_correct_answers` -/

/-- One `li.wpProQuiz_questionListItem` node, holding the attributes the
converter queries: its class list, its `data-pos` attribute (already parsed
to an integer, `none` when absent) and its label's text content after the
embedded input control is removed (`none` when the item has no label). -/
structure AnswerItem where
  classes : List String
  dataPos : Option Int
  labelText : Option String
deriving DecidableEq

/-- One `li.wpProQuiz_listItem` quiz item, holding what the converter reads:
the question-text node's raw text, the `data-type` attribute of the
`ul.wpProQuiz_questionList` container (`none` when the container is absent;
a present container with no attribute carries `some ""`), the answer items
in document order, and the raw text of the `div.wpProQuiz_response`
explanation container (`none` when absent). -/
structure QuestionElement where
  questionText : Option String
  questionListType : Option String
  answerItems : List AnswerItem
  explanationText : Option String
deriving DecidableEq

/-- Lines 49–60 of the converter: scan the answer items for the
`wpProQuiz_answerCorrect` class; on a flagged item with a `data-pos`,
record `pos + 1` and stop; a flagged item without `data-pos` is passed
over and the scan continues. -/
def singleScan : List AnswerItem → List Int
  | [] => []
  | item :: rest =>
    if "wpProQuiz_answerCorrect" ∈ item.classes then
      match item.dataPos with
      | some p => [p + 1]
      | none => singleScan rest
    else singleScan rest

/-- Lines 62–89: the textual resolution over the explanation container's
text, empty when the container is absent. -/
def multiRaw (q : QuestionElement) : List Int :=
  match q.explanationText with
  | some s => resolveMultiRaw s.toList
  | none => []

/-- Lines 91–102: ensure a multi-select question ends with at least two
positions — none found defaults to `[1, 2]`; exactly one found appends
`2` if it was `1` and `1` otherwise. -/
def multiEnsureTwo (ca : List Int) : List Int :=
  if ca.length < 2 then
    if ca.length = 0 then [1, 2]
    else if ca.headD 0 = 1 then ca ++ [2] else ca ++ [1]
  else ca

/-- `determine_correct_answers(question_element, question_type)`. -/
def determineCorrectAnswers (q : QuestionElement) (qtype : String) : List Int :=
  if qtype = "multiple-choice" then singleScan q.answerItems
  else if qtype = "multi-select" then multiEnsureTwo (multiRaw q)
  else []

/-- Lines 150–163 of `extract_question_data`: the validation applied to the
resolver's output — empty defaults per type, a one-element multi-select
list gets a second position. -/
def validateCorrect (qtype : String) (ca : List Int) : List Int :=
  if ca = [] then (if qtype = "multi-select" then [1, 2] else [1])
  else if qtype = "multi-select" ∧ ca.length < 2 then
    (if ca.headD 0 = 1 then ca ++ [2] else ca ++ [1])
  else ca

/-- The record `extract_question_data` builds (the fields the export claims
read; the overall explanation and domain are carried through unchanged by
the exporter and are not modelled). -/
structure QData where
  question : String
  question_type : String
  answers : List String
  explanations : List String
  correct_answers : List Int
deriving DecidableEq

/-- `extract_question_data(question_element)`: question text cleaned;
`data-type` `'single'` ↦ `'multiple-choice'`, `'multiple'` ↦
`'multi-select'`, anything else leaves the type `''`; one cleaned answer
and one empty explanation per labelled answer item; correct answers from
`determine_correct_answers` then validated. -/
def extractQuestionData (q : QuestionElement) : QData :=
  let question := match q.questionText with
    | some t => cleanText t
    | none => ""
  let qtype := match q.questionListType with
    | some dt =>
      if dt = "single" then "multiple-choice"
      else if dt = "multiple" then "multi-select"
      else ""
    | none => ""
  let answers := (q.answerItems.filterMap (fun it => it.labelText)).map cleanText
  let explanations := answers.map (fun _ => "")
  let ca := validateCorrect qtype (determineCorrectAnswers q qtype)
  ⟨question, qtype, answers, explanations, ca⟩

/-! ## The converter's CSV row (lines 245–264) -/

/-- `str` of a correct-answer position. -/
def intStr (n : Int) : String := toString n

/-- The row's `Correct Answers` field:
`','.join(correct_answers) if correct_answers else '1'`. -/
def rowCorrectAnswers (d : QData) : String :=
  if d.correct_answers = [] then "1"
  else String.intercalate "," (d.correct_answers.map intStr)

/-- The row's `Question Type` field: the extracted type string verbatim. -/
def rowQuestionType (d : QData) : String :=
  d.question_type

/-- The row's `Answer Option i+1` / `Explanation i+1` pair (0-based `i`):
filled from the i-th answer when it exists, else two empty strings. -/
def rowSlot (d : QData) (i : Nat) : String × String :=
  if i < d.answers.length then
    (d.answers.getD i "",
     if i < d.explanations.length then d.explanations.getD i "" else "")
  else ("", "")

/-- The six answer/explanation slot pairs of the row, `for i in range(6)`. -/
def rowSlots (d : QData) : List (String × String) :=
  (List.range 6).map (rowSlot d)

/-! ## `UdemyCSVGenerator` (csv_generator.py) -/

/-- An `Answer` model instance as `add_question` reads it. -/
structure GenAnswer where
  answer_text : String
  explanation : Option String
  is_correct : Bool
deriving DecidableEq

/-- `_get_question_type_display`: the `type_mapping.get(·, 'multi-select')`
lookup. -/
def getQuestionTypeDisplay (t : String) : String :=
  if t = "multiple_choice" then "multiple-choice"
  else if t = "multiple_select" then "multi-select"
  else "multi-select"

/-- `add_question`'s `Answer Option i+1` / `Explanation i+1` pair (0-based
`i`): the i-th answer's text and its explanation (`or ''`) when it exists,
else two empty strings. -/
def genSlot (answers : List GenAnswer) (i : Nat) : String × String :=
  if i < answers.length then
    ((answers.getD i ⟨"", none, false⟩).answer_text,
     ((answers.getD i ⟨"", none, false⟩).explanation).getD "")
  else ("", "")

/-- The six slot pairs of `add_question`, `for i in range(6)`. -/
def genSlots (answers : List GenAnswer) : List (String × String) :=
  (List.range 6).map (genSlot answers)

/-- `add_question`'s `Correct Answers` field: `str(i + 1)` for each answer
with `is_correct`, in enumeration order, comma-joined. -/
def genCorrectAnswers (answers : List GenAnswer) : String :=
  String.intercalate ","
    (answers.enum.filterMap
      (fun p => if p.2.is_correct then some (toString (p.1 + 1)) else none))

/-! ## `DomainSuggester` (domain_suggester.py)

Python floats are modelled as `ℚ`; the taxonomy `DOMAIN_KEYWORDS` is an
association list exam → (domain → (weight category → keyword list)),
preserving the dictionaries' insertion order. -/

/-- One exam's keyword table: domain name → weight-category → keywords. -/
abbrev ExamKW := List (String × List (String × List String))

/-- `WEIGHT_MULTIPLIERS`: only the three known categories score; an unknown
category is skipped. -/
def weightOf (cat : String) : Option ℚ :=
  if cat = "high_weight" then some 3
  else if cat = "medium_weight" then some 2
  else if cat = "low_weight" then some 1
  else none

/-- `\w` of the normalizer's character class (ASCII). -/
def isWordChar (c : Char) : Bool :=
  c.isAlphanum || c = '_'

/-- `_normalize_text`: lower-case, replace every character outside
`[\w\s\-\./]` by a space, collapse whitespace runs, strip. -/
def normalizeText (s : String) : List Char :=
  let t1 := s.toList.map Char.toLower
  let t2 := t1.map (fun c =>
    if isWordChar c || isPySpace c || c = '-' || c = '.' || c = '/' then c
    else ' ')
  pyStrip (collapseWS t2)

/-- Python `str.count` for a non-empty pattern: non-overlapping occurrences
scanned left to right; `skip` counts positions still covered by the match
just found. -/
def countAux (pat : List Char) (skip : Nat) : List Char → Nat
  | [] => 0
  | c :: rest =>
    match skip with
    | s + 1 => countAux pat s rest
    | 0 =>
      if pfx pat (c :: rest) then 1 + countAux pat (pat.length - 1) rest
      else countAux pat 0 rest

/-- Python `text.count(pat)` (an empty pattern counts `len + 1`). -/
def pyCount (pat cs : List Char) : Nat :=
  if pat = [] then cs.length + 1 else countAux pat 0 cs

/-- Python `str.split()`: split on whitespace runs, dropping empty pieces;
`cur` buffers the word in progress. -/
def splitAux (cur : List Char) : List Char → List (List Char)
  | [] => if cur = [] then [] else [cur]
  | c :: rest =>
    if isPySpace c then
      if cur = [] then splitAux [] rest else cur :: splitAux [] rest
    else splitAux (cur ++ [c]) rest

/-- `keyword_lower.split()`. -/
def pySplit (cs : List Char) : List (List Char) :=
  splitAux [] cs

/-- `_score_keywords`' per-keyword score: a verbatim substring scores
occurrences × phrase bonus × (1 + 0.3 × word count); otherwise a multi-word
keyword with ≥ 60 % of its words present scores 0.3 per matching word. -/
def scoreKeyword (text : List Char) (kw : String) : ℚ :=
  let kl := kw.toList.map Char.toLower
  if isSubstr kl text then
    let occurrences : ℚ := pyCount kl text
    let phraseBonus : ℚ := if kl.contains ' ' then 3 / 2 else 1
    let lengthBonus : ℚ := (pySplit kl).length * (3 / 10)
    occurrences * phraseBonus * (1 + lengthBonus)
  else
    let ws := pySplit kl
    if 1 < ws.length then
      let matching := (ws.filter (fun w => isSubstr w text)).length
      if (matching : ℚ) ≥ (ws.length : ℚ) * (6 / 10) then (matching : ℚ) * (3 / 10)
      else 0
    else 0

/-- `_score_keywords`: the sum over the category's keywords. -/
def scoreKeywords (text : List Char) (kws : List String) : ℚ :=
  (kws.map (scoreKeyword text)).sum

/-- `_analyze_question_text`: normalize, then per domain sum the weighted
category scores (unknown categories contribute nothing). -/
def analyzeText (text : String) (examKw : ExamKW) : List (String × ℚ) :=
  let ntext := normalizeText text
  examKw.map (fun dc =>
    (dc.1,
     (dc.2.map (fun ck =>
        match weightOf ck.1 with
        | some w => scoreKeywords ntext ck.2 * w
        | none => 0)).sum))

/-- Stable insertion for the descending sort of `sorted(..., reverse=True)`:
an element goes after every earlier element of greater-or-equal score. -/
def insertDesc (x : String × ℚ) : List (String × ℚ) → List (String × ℚ)
  | [] => [x]
  | y :: ys => if y.2 < x.2 then x :: y :: ys else y :: insertDesc x ys

/-- `sorted(domain_scores.items(), key=score, reverse=True)`: a stable
descending sort, inserting the scores in their dictionary order. -/
def sortDesc (l : List (String × ℚ)) : List (String × ℚ) :=
  l.foldl (fun acc x => insertDesc x acc) []

/-- `_calculate_confidence(score, max_score)`. -/
def calcConfidence (score maxScore : ℚ) : ℚ :=
  if maxScore = 0 then 0
  else
    let relativeScore := score / maxScore * 100
    let confidence :=
      if relativeScore ≥ 80 then 85 + (relativeScore - 80) * (1 / 2)
      else if relativeScore ≥ 60 then 70 + (relativeScore - 60) * (3 / 4)
      else if relativeScore ≥ 40 then 50 + (relativeScore - 40) * 1
      else if relativeScore ≥ 20 then 30 + (relativeScore - 20) * 1
      else relativeScore * (3 / 2)
    min 95 (max 5 confidence)

/-- `_get_confidence_level(confidence)`. -/
def getConfidenceLevel (c : ℚ) : String :=
  if c ≥ 75 then "High"
  else if c ≥ 55 then "Medium"
  else if c ≥ 35 then "Low"
  else "Very Low"

/-- Round-half-to-even on ℚ, the idealisation of Python's `round` on a
float. -/
def halfEven (q : ℚ) : ℤ :=
  let f := Rat.floor q
  let r := q - f
  if r < 1 / 2 then f
  else if 1 / 2 < r then f + 1
  else if f % 2 = 0 then f else f + 1

/-- Python `round(q, nd)`. -/
def pyRound (q : ℚ) (nd : ℕ) : ℚ :=
  (halfEven (q * 10 ^ nd) : ℚ) / 10 ^ nd

/-- One entry of `suggest_domains`' result list. -/
structure Suggestion where
  domain_name : String
  score : ℚ
  confidence : ℚ
  confidence_level : String
deriving DecidableEq

/-- `DOMAIN_KEYWORDS.get(exam_name, {})` over the association-list model. -/
def lookupExam (tax : List (String × ExamKW)) (name : String) : Option ExamKW :=
  tax.lookup name

/-- `suggest_domains(question_text, exam_name, top_n)`: empty text or exam
name gives `[]`; `DOMAIN_KEYWORDS.get(exam_name, {})` with a falsy (missing
or empty) keyword table gives `[]`; otherwise score, sort descending, keep
the first `top_n` domains with positive score, and attach rounded score,
rounded confidence and the confidence level. -/
def suggestDomains (tax : List (String × ExamKW)) (questionText examName : String)
    (topN : Nat) : List Suggestion :=
  if questionText = "" || examName = "" then []
  else
    let examKeywords := (lookupExam tax examName).getD []
    if examKeywords = [] then []
    else
      let domainScores := analyzeText questionText examKeywords
      let sortedDomains := sortDesc domainScores
      let maxScore := if sortedDomains = [] then 0 else (sortedDomains.headD ("", 0)).2
      (sortedDomains.take topN).filterMap (fun ds =>
        if ds.2 > 0 then
          some ⟨ds.1, pyRound ds.2 2,
                pyRound (calcConfidence ds.2 maxScore) 1,
                getConfidenceLevel (calcConfidence ds.2 maxScore)⟩
        else none)

/-! ## Concrete inputs used by witnesses and counterexamples -/

/-- The i-th uppercase letter, `0 ↦ 'A'`. -/
def letterChar (i : Fin 26) : Char := Char.ofNat (65 + i.val)

/-- An explanation of the form `Correct answers: X, Y`. -/
def twoLetterExplanation (i j : Fin 26) : List Char :=
  "Correct answers: ".toList ++ [letterChar i] ++ ", ".toList ++ [letterChar j]

/-- Insertion for an ascending sort of positions. -/
def insertAsc (x : Int) : List Int → List Int
  | [] => [x]
  | y :: ys => if x ≤ y then x :: y :: ys else y :: insertAsc x ys

/-- Ascending sort of positions, as the claimed export order reads. -/
def sortAsc (l : List Int) : List Int :=
  l.foldr insertAsc []

/-- A multi-select quiz item whose explanation names the letters out of
order: `C, A`. -/
def qExplCA : QuestionElement :=
  ⟨some "Which two services apply?",
   some "multiple",
   [⟨["wpProQuiz_questionListItem"], some 0, some "Service one"⟩,
    ⟨["wpProQuiz_questionListItem"], some 1, some "Service two"⟩,
    ⟨["wpProQuiz_questionListItem"], some 2, some "Service three"⟩],
   some "Both options work together. Correct answers: C, A as discussed."⟩

/-- A quiz item whose answer-list container carries an unrecognized
`data-type` marker. -/
def qOddType : QuestionElement :=
  ⟨some "What is this?",
   some "strange",
   [⟨["wpProQuiz_questionListItem"], some 0, some "First"⟩,
    ⟨["wpProQuiz_questionListItem"], some 1, some "Second"⟩],
   none⟩

/-- A one-exam taxonomy used to exercise the suggester at a concrete
input. -/
def taxW : List (String × ExamKW) :=
  [("exam_w", [("Domain One", [("high_weight", ["cloud"])])])]

/-- The claim's reading of the confidence transform, written over the
disjoint intervals from below (x < 20, 20 ≤ x < 40, 40 ≤ x < 60,
60 ≤ x < 80, 80 ≤ x), to be compared with `calcConfidence`. -/
def claimConf (x : ℚ) : ℚ :=
  if x < 20 then (3 / 2) * x
  else if x < 40 then 30 + (x - 20)
  else if x < 60 then 50 + (x - 40)
  else if x < 80 then 70 + (3 / 4) * (x - 60)
  else 85 + (1 / 2) * (x - 80)

/-- The last character, when there is one, is not whitespace. -/
def lastNonSpace : List Char → Bool
  | [] => true
  | [c] => !isPySpace c
  | _ :: d :: rest => lastNonSpace (d :: rest)

/-! # Lemmas and theorems -/

theorem toList_asString (l : List Char) : (l.asString).toList = l := rfl

theorem validateCorrect_ne_nil (t : String) (ca : List Int) :
    validateCorrect t ca ≠ [] := by
  unfold validateCorrect
  split_ifs <;> simp_all

theorem multiEnsureTwo_two_le (ca : List Int) :
    2 ≤ (multiEnsureTwo ca).length := by
  unfold multiEnsureTwo
  rcases ca with _ | ⟨p, ps⟩
  · simp
  · rcases ps with _ | ⟨p2, ps2⟩
    · by_cases hp : p = 1 <;> simp [hp]
    · split_ifs <;> simp_all

/-- C2.  After resolution every question ends with at least one correct
position and every multi-select question with at least two; a resolution
that found nothing defaults to `{1}` (single/unknown) or `{1, 2}` (multi),
and a multi-select resolution that found exactly one position `p` appends
`2` when `p = 1` and `1` otherwise. -/
theorem c2_resolution_defaulting (q : QuestionElement) (t : String) :
    1 ≤ (validateCorrect t (determineCorrectAnswers q t)).length
    ∧ 2 ≤ (validateCorrect "multi-select" (determineCorrectAnswers q "multi-select")).length
    ∧ validateCorrect "multi-select" (determineCorrectAnswers q "multi-select")
        = (if multiRaw q = [] then [1, 2]
           else if (multiRaw q).length = 1 then
             multiRaw q ++ [if (multiRaw q).headD 0 = 1 then 2 else 1]
           else multiRaw q)
    ∧ validateCorrect t [] = (if t = "multi-select" then [1, 2] else [1]) := by
  have hms : determineCorrectAnswers q "multi-select" = multiEnsureTwo (multiRaw q) := by
    unfold determineCorrectAnswers
    simp
  have hv2 : validateCorrect "multi-select" (multiEnsureTwo (multiRaw q))
      = multiEnsureTwo (multiRaw q) := by
    have h2 := multiEnsureTwo_two_le (multiRaw q)
    have hne : multiEnsureTwo (multiRaw q) ≠ [] := by
      intro h0
      rw [h0] at h2
      simp at h2
    unfold validateCorrect
    rw [if_neg hne, if_neg (fun hand => absurd hand.2 (by omega))]
  refine ⟨?_, ?_, ?_, ?_⟩
  · have h := validateCorrect_ne_nil t (determineCorrectAnswers q t)
    have h2 := List.length_pos.mpr h
    omega
  · rw [hms, hv2]; exact multiEnsureTwo_two_le _
  · rw [hms, hv2]
    rcases hmr : multiRaw q with _ | ⟨p, ps⟩
    · simp [multiEnsureTwo]
    · rcases ps with _ | ⟨p2, ps2⟩
      · by_cases hp : p = 1 <;> simp [multiEnsureTwo, hp]
      · simp [multiEnsureTwo]
  · unfold validateCorrect
    simp

set_option maxHeartbeats 1600000 in
/-- C1.  Multi-answer resolution: for any two letters the comma-separated
form after `Correct answers:` resolves to their 1-based alphabet positions
with first-seen deduplication (pattern 1, matched case-insensitively at the
leftmost occurrence), and a concrete explanation embedding
`Correct answers: A, C` resolves to positions `[1, 3]` through the full
extraction pipeline. -/
theorem c1_multi_letter_resolution :
    (∀ i j : Fin 26,
      resolveMultiRaw (twoLetterExplanation i j)
        = (if i = j then [(i.val : Int) + 1]
           else [(i.val : Int) + 1, (j.val : Int) + 1]))
    ∧ (extractQuestionData
        ⟨some "Pick two.", some "multiple",
         [⟨["wpProQuiz_questionListItem"], some 0, some "One"⟩,
          ⟨["wpProQuiz_questionListItem"], some 1, some "Two"⟩,
          ⟨["wpProQuiz_questionListItem"], some 2, some "Three"⟩],
         some "See the docs. Correct answers: A, C for the reasons above."⟩).correct_answers
        = [1, 3] := by
  constructor
  · decide
  · decide

theorem singleScan_append_unflagged (pre l : List AnswerItem)
    (hpre : ∀ a ∈ pre, "wpProQuiz_answerCorrect" ∉ a.classes) :
    singleScan (pre ++ l) = singleScan l := by
  induction pre with
  | nil => rfl
  | cons a pre ih =>
    have ha := hpre a (by simp)
    have hrest : ∀ b ∈ pre, "wpProQuiz_answerCorrect" ∉ b.classes :=
      fun b hb => hpre b (by simp [hb])
    simp [singleScan, ha, ih hrest]

/-- C3.  Single-answer structural resolution: when exactly one answer item
carries the `wpProQuiz_answerCorrect` class and its `data-pos` attribute is
`p`, the resolver returns exactly `[p + 1]`; and a scan of items none of
which carries the class returns the empty list. -/
theorem c3_single_structural (qt dt el : Option String)
    (pre post : List AnswerItem) (it : AnswerItem) (p : Int)
    (hpre : ∀ a ∈ pre, "wpProQuiz_answerCorrect" ∉ a.classes)
    (hit : "wpProQuiz_answerCorrect" ∈ it.classes)
    (hpos : it.dataPos = some p)
    (hpost : ∀ a ∈ post, "wpProQuiz_answerCorrect" ∉ a.classes) :
    determineCorrectAnswers ⟨qt, dt, pre ++ it :: post, el⟩ "multiple-choice" = [p + 1]
    ∧ singleScan (pre ++ post) = [] := by
  constructor
  · show singleScan (pre ++ it :: post) = [p + 1]
    rw [singleScan_append_unflagged pre _ hpre]
    simp [singleScan, hit, hpos]
  · rw [singleScan_append_unflagged pre _ hpre]
    have h0 := singleScan_append_unflagged post [] hpost
    rw [List.append_nil] at h0
    exact h0

/-- Witness for C3 at a concrete three-item question whose second item is
flagged with `data-pos` 1. -/
theorem c3_single_structural_witness :
    determineCorrectAnswers
      ⟨some "Which one?", some "single",
       [⟨["wpProQuiz_questionListItem"], some 0, some "Alpha"⟩]
         ++ ⟨["wpProQuiz_questionListItem", "wpProQuiz_answerCorrect"], some 1, some "Beta"⟩
           :: [⟨["wpProQuiz_questionListItem"], some 2, some "Gamma"⟩],
       none⟩ "multiple-choice" = [(1 : Int) + 1]
    ∧ singleScan
        ([⟨["wpProQuiz_questionListItem"], some 0, some "Alpha"⟩]
          ++ [⟨["wpProQuiz_questionListItem"], some 2, some "Gamma"⟩]) = [] :=
  c3_single_structural (some "Which one?") (some "single") none
    [⟨["wpProQuiz_questionListItem"], some 0, some "Alpha"⟩]
    [⟨["wpProQuiz_questionListItem"], some 2, some "Gamma"⟩]
    ⟨["wpProQuiz_questionListItem", "wpProQuiz_answerCorrect"], some 1, some "Beta"⟩
    1 (by decide) (by decide) rfl (by decide)

/-- Counterexample to C5 as stated: with an explanation naming the letters
as `C, A`, the exported `Correct Answers` field is `"3,1"`, not the
ascending join `"1,3"`. -/
theorem c5_counterexample_order :
    rowCorrectAnswers (extractQuestionData qExplCA) = "3,1"
    ∧ String.intercalate ","
        ((sortAsc (extractQuestionData qExplCA).correct_answers).map intStr) = "1,3"
    ∧ rowCorrectAnswers (extractQuestionData qExplCA)
        ≠ String.intercalate ","
            ((sortAsc (extractQuestionData qExplCA).correct_answers).map intStr) := by
  refine ⟨by decide, by decide, by decide⟩

/-- C5 as amended: the exported `Correct Answers` field is the comma-join
of the resolved positions in the order resolution produced them (which is
never empty after validation), and a row whose correct-answer list is
empty at export time renders as `"1"`. -/
theorem c5_amended_export_join (q : QuestionElement) (d : QData) :
    rowCorrectAnswers (extractQuestionData q)
      = String.intercalate "," (((extractQuestionData q).correct_answers).map intStr)
    ∧ (extractQuestionData q).correct_answers ≠ []
    ∧ rowCorrectAnswers ⟨d.question, d.question_type, d.answers, d.explanations, []⟩ = "1" := by
  have hne : (extractQuestionData q).correct_answers ≠ [] := by
    show validateCorrect _ _ ≠ []
    exact validateCorrect_ne_nil _ _
  exact ⟨by rw [rowCorrectAnswers, if_neg hne], hne, rfl⟩

/-- Counterexample to C6 as stated: an unrecognized `data-type` marker
exports the `Question Type` field as the empty string, not as
`multi-select`. -/
theorem c6_counterexample_unknown_type :
    rowQuestionType (extractQuestionData qOddType) = ""
    ∧ rowQuestionType (extractQuestionData qOddType) ≠ "multi-select" :=
  ⟨by decide, by decide⟩

/-- C6 as amended: the converter renders `single` as `multiple-choice`,
`multiple` as `multi-select` and any other (or missing) marker as the
empty string, while the Django CSV generator renders `multiple_choice` as
`multiple-choice` and every other internal type as `multi-select`. -/
theorem c6_amended_type_rendering (q : QuestionElement) (s : String) :
    rowQuestionType (extractQuestionData q)
      = (match q.questionListType with
         | some dt =>
           if dt = "single" then "multiple-choice"
           else if dt = "multiple" then "multi-select"
           else ""
         | none => "")
    ∧ getQuestionTypeDisplay s
      = (if s = "multiple_choice" then "multiple-choice" else "multi-select") := by
  constructor
  · rfl
  · unfold getQuestionTypeDisplay
    split_ifs <;> rfl

theorem mapConst_getD (l : List String) (i : Nat) :
    (l.map (fun _ => "")).getD i "" = "" := by
  induction l generalizing i with
  | nil => simp
  | cons a l ih =>
    cases i with
    | zero => rfl
    | succ n => simp [ih n]

theorem slots_characterization {α β : Type} (n : Nat) (l : List α)
    (g : α → β) (pad : β) (dflt : α) :
    (List.range n).map (fun i => if i < l.length then g (l.getD i dflt) else pad)
      = (l.take n).map g ++ List.replicate (n - l.length) pad := by
  induction n with
  | zero => simp
  | succ n ih =>
    rw [List.range_succ, List.map_append, ih]
    by_cases h : n < l.length
    · have h1 : n + 1 - l.length = 0 := by omega
      have h0 : n - l.length = 0 := by omega
      have ht : l.take (n + 1) = l.take n ++ [l.getD n dflt] := by
        rw [List.take_succ]
        congr 1
        rw [List.getElem?_eq_getElem h]
        simp [List.getD, List.getElem?_eq_getElem h]
      rw [h0, h1, ht, List.map_append]
      simp [h]
    · have hle : l.length ≤ n := by omega
      have h1 : l.take (n + 1) = l.take n := by
        rw [List.take_of_length_le hle, List.take_of_length_le (by omega)]
      have h2 : n + 1 - l.length = (n - l.length) + 1 := by omega
      rw [h1, h2, List.replicate_succ']
      simp [h]

/-- C7.  The six exported answer/explanation slot pairs are the first six
answers (text with per-answer explanation) padded with empty pairs; hence
appending answers beyond the sixth never changes the exported slots, and
the converter's row behaves the same with its always-empty per-answer
explanations. -/
theorem c7_export_slots (ga extra : List GenAnswer) (q : QuestionElement) :
    genSlots ga
      = (ga.take 6).map (fun a => (a.answer_text, a.explanation.getD ""))
          ++ List.replicate (6 - ga.length) ("", "")
    ∧ (6 ≤ ga.length → genSlots (ga ++ extra) = genSlots ga)
    ∧ rowSlots (extractQuestionData q)
        = (((extractQuestionData q).answers.take 6).map (fun a => (a, "")))
            ++ List.replicate (6 - (extractQuestionData q).answers.length) ("", "") := by
  have hgen : ∀ l : List GenAnswer,
      genSlots l
        = (l.take 6).map (fun a => (a.answer_text, a.explanation.getD ""))
            ++ List.replicate (6 - l.length) ("", "") := by
    intro l
    have := slots_characterization 6 l
      (fun a => (a.answer_text, a.explanation.getD "")) ("", "") ⟨"", none, false⟩
    rw [← this]
    rfl
  refine ⟨hgen ga, ?_, ?_⟩
  · intro h6
    rw [hgen, hgen, List.take_append_of_le_length h6]
    have : 6 - (ga ++ extra).length = 6 - ga.length := by
      rw [List.length_append]; omega
    rw [this]
  · have hexp : (extractQuestionData q).explanations
        = ((extractQuestionData q).answers).map (fun _ => "") := rfl
    have hrow : ∀ i, rowSlot (extractQuestionData q) i
        = (if i < (extractQuestionData q).answers.length
           then ((fun a => (a, "")) (((extractQuestionData q).answers).getD i ""))
           else ("", "")) := by
      intro i
      rw [rowSlot, hexp]
      by_cases hi : i < (extractQuestionData q).answers.length
      · rw [if_pos hi, if_pos hi, mapConst_getD]
        rw [if_pos (by simpa using hi)]
      · rw [if_neg hi, if_neg hi]
    have := slots_characterization 6 ((extractQuestionData q).answers)
      (fun a => (a, "")) ("", "") ""
    rw [← this, rowSlots]
    exact List.map_congr_left (fun i _ => hrow i)

theorem minmax_clamp_swap (a : ℚ) : min 95 (max 5 a) = max 5 (min 95 a) := by
  simp only [min_def, max_def]
  split_ifs <;> linarith

/-- C8.  For a positive maximum score, `_calculate_confidence` is exactly
the claimed piecewise transform of the relative score clamped into
`[5, 95]`, and `_get_confidence_level` buckets a confidence as High iff
`≥ 75`, Medium iff `55 ≤ c < 75`, Low iff `35 ≤ c < 55` and Very Low
otherwise. -/
theorem c8_confidence_curve (s m : ℚ) (hm : m ≠ 0) :
    calcConfidence s m = max 5 (min 95 (claimConf (s / m * 100)))
    ∧ (∀ c : ℚ,
        (getConfidenceLevel c = "High" ↔ 75 ≤ c)
        ∧ (getConfidenceLevel c = "Medium" ↔ 55 ≤ c ∧ c < 75)
        ∧ (getConfidenceLevel c = "Low" ↔ 35 ≤ c ∧ c < 55)
        ∧ (getConfidenceLevel c = "Very Low" ↔ c < 35)) := by
  constructor
  · simp only [calcConfidence]
    rw [if_neg hm]
    have hinner :
        (if s / m * 100 ≥ 80 then 85 + (s / m * 100 - 80) * (1 / 2)
         else if s / m * 100 ≥ 60 then 70 + (s / m * 100 - 60) * (3 / 4)
         else if s / m * 100 ≥ 40 then 50 + (s / m * 100 - 40) * 1
         else if s / m * 100 ≥ 20 then 30 + (s / m * 100 - 20) * 1
         else s / m * 100 * (3 / 2))
          = claimConf (s / m * 100) := by
      rw [claimConf]
      split_ifs <;> linarith
    rw [hinner]
    exact minmax_clamp_swap _
  · intro c
    rw [getConfidenceLevel]
    split_ifs with h1 h2 h3
    · refine ⟨⟨fun _ => h1, fun _ => rfl⟩, ?_, ?_, ?_⟩ <;>
        exact ⟨fun hx => absurd hx (by decide), fun hx => by
          first
          | exact absurd h1 (by push_neg; linarith [hx.2])
          | exact absurd h1 (by push_neg; linarith [hx])⟩
    · refine ⟨⟨fun hx => absurd hx (by decide), fun hx => absurd hx (by push_neg at h1; linarith)⟩,
        ⟨fun _ => ⟨h2, by push_neg at h1; linarith⟩, fun _ => rfl⟩, ?_, ?_⟩ <;>
        exact ⟨fun hx => absurd hx (by decide), fun hx => by
          first
          | exact absurd h2 (by push_neg; linarith [hx.2])
          | exact absurd h2 (by push_neg; linarith [hx])⟩
    · push_neg at h1 h2
      refine ⟨⟨fun hx => absurd hx (by decide), fun hx => absurd hx (by push_neg; linarith)⟩,
        ⟨fun hx => absurd hx (by decide), fun hx => absurd hx.1 (by push_neg; linarith)⟩,
        ⟨fun _ => ⟨h3, by linarith⟩, fun _ => rfl⟩,
        ⟨fun hx => absurd hx (by decide), fun hx => absurd hx (by push_neg; linarith)⟩⟩
    · push_neg at h1 h2 h3
      refine ⟨⟨fun hx => absurd hx (by decide), fun hx => absurd hx (by push_neg; linarith)⟩,
        ⟨fun hx => absurd hx (by decide), fun hx => absurd hx.1 (by push_neg; linarith)⟩,
        ⟨fun hx => absurd hx (by decide), fun hx => absurd hx.1 (by push_neg; linarith)⟩,
        ⟨fun _ => by linarith, fun _ => rfl⟩⟩

/-- Witness for C8 at scores 3 and 4. -/
theorem c8_confidence_curve_witness :
    ((4 : ℚ) ≠ 0)
    ∧ (calcConfidence 3 4 = max 5 (min 95 (claimConf (3 / 4 * 100)))
       ∧ (∀ c : ℚ,
           (getConfidenceLevel c = "High" ↔ 75 ≤ c)
           ∧ (getConfidenceLevel c = "Medium" ↔ 55 ≤ c ∧ c < 75)
           ∧ (getConfidenceLevel c = "Low" ↔ 35 ≤ c ∧ c < 55)
           ∧ (getConfidenceLevel c = "Very Low" ↔ c < 35))) :=
  ⟨by norm_num, c8_confidence_curve 3 4 (by norm_num)⟩

/-- C9.  `suggest_domains` returns the empty list — and raises nothing —
for empty question text, and likewise for an exam identifier absent from
the keyword taxonomy. -/
theorem c9_degenerate_inputs (tax : List (String × ExamKW))
    (text exam exam2 : String) (topN : Nat)
    (h : lookupExam tax exam2 = none) :
    suggestDomains tax "" exam topN = []
    ∧ suggestDomains tax text exam2 topN = [] := by
  constructor
  · simp [suggestDomains]
  · by_cases ht : text = ""
    · simp [suggestDomains, ht]
    · simp [suggestDomains, ht, h]

/-- Witness for C9: the concrete taxonomy `taxW` has no exam
`unknown_exam`, and both degenerate calls return `[]`. -/
theorem c9_degenerate_inputs_witness :
    (lookupExam taxW "unknown_exam" = none)
    ∧ (suggestDomains taxW "" "exam_w" 3 = []
       ∧ suggestDomains taxW "some text" "unknown_exam" 3 = []) :=
  ⟨by decide, c9_degenerate_inputs taxW "some text" "exam_w" "unknown_exam" 3 (by decide)⟩

theorem mem_insertDesc (x z : String × ℚ) (l : List (String × ℚ))
    (h : z ∈ insertDesc x l) : z = x ∨ z ∈ l := by
  induction l with
  | nil =>
    rw [insertDesc] at h
    exact Or.inl (by simpa using h)
  | cons y ys ih =>
    rw [insertDesc] at h
    split_ifs at h with hc
    · rcases List.mem_cons.mp h with h1 | h2
      · exact Or.inl h1
      · exact Or.inr h2
    · rcases List.mem_cons.mp h with h1 | h2
      · exact Or.inr (by simp [h1])
      · rcases ih h2 with h3 | h4
        · exact Or.inl h3
        · exact Or.inr (by simp [h4])

theorem pairwise_insertDesc (x : String × ℚ) (l : List (String × ℚ))
    (hl : l.Pairwise (fun a b => b.2 ≤ a.2)) :
    (insertDesc x l).Pairwise (fun a b => b.2 ≤ a.2) := by
  induction l with
  | nil => simp [insertDesc]
  | cons y ys ih =>
    rcases List.pairwise_cons.mp hl with ⟨hy, hys⟩
    rw [insertDesc]
    split_ifs with hc
    · refine List.pairwise_cons.mpr ⟨?_, hl⟩
      intro z hz
      rcases List.mem_cons.mp hz with h1 | h2
      · rw [h1]; linarith
      · have := hy z h2; linarith
    · refine List.pairwise_cons.mpr ⟨?_, ih hys⟩
      intro z hz
      rcases mem_insertDesc x z ys hz with h1 | h2
      · rw [h1]; exact not_lt.mp hc
      · exact hy z h2

theorem pairwise_sortDesc_aux (l acc : List (String × ℚ))
    (hacc : acc.Pairwise (fun a b => b.2 ≤ a.2)) :
    (l.foldl (fun a x => insertDesc x a) acc).Pairwise (fun a b => b.2 ≤ a.2) := by
  induction l generalizing acc with
  | nil => exact hacc
  | cons a l ih => exact ih _ (pairwise_insertDesc a acc hacc)

theorem pairwise_sortDesc (l : List (String × ℚ)) :
    (sortDesc l).Pairwise (fun a b => b.2 ≤ a.2) :=
  pairwise_sortDesc_aux l [] (by simp)

theorem calcConfidence_self (s : ℚ) (hs : s ≠ 0) : calcConfidence s s = 95 := by
  simp only [calcConfidence]
  rw [if_neg hs, div_self hs]
  norm_num

theorem ratFloor_eq_intFloor (q : ℚ) : Rat.floor q = ⌊q⌋ := by
  rw [Rat.floor_def', Rat.floor_def]

theorem halfEven_intCast (n : ℤ) : halfEven (n : ℚ) = n := by
  simp only [halfEven, ratFloor_eq_intFloor, Int.floor_intCast, sub_self]
  norm_num

theorem pyRound_eq_self (q : ℚ) (nd : ℕ) (m : ℤ) (hm : q * 10 ^ nd = m) :
    pyRound q nd = q := by
  rw [pyRound, hm, halfEven_intCast, ← hm]
  have h10 : ((10 : ℚ)) ^ nd ≠ 0 := by positivity
  field_simp

theorem pyRound_95 : pyRound 95 1 = 95 :=
  pyRound_eq_self 95 1 950 (by norm_num)

theorem level_95 : getConfidenceLevel 95 = "High" := by
  rw [getConfidenceLevel, if_pos (by norm_num)]

theorem suggestions_head_max (sorted : List (String × ℚ)) (topN : Nat)
    (hsorted : sorted.Pairwise (fun a b => b.2 ≤ a.2))
    (res : List Suggestion)
    (hres : res = (sorted.take topN).filterMap (fun ds =>
        if ds.2 > 0 then
          some ⟨ds.1, pyRound ds.2 2,
                pyRound (calcConfidence ds.2
                  (if sorted = [] then 0 else (sorted.headD ("", 0)).2)) 1,
                getConfidenceLevel (calcConfidence ds.2
                  (if sorted = [] then 0 else (sorted.headD ("", 0)).2))⟩
        else none))
    (hne : res ≠ []) :
    (res.headD ⟨"", 0, 0, ""⟩).confidence = 95
    ∧ (res.headD ⟨"", 0, 0, ""⟩).confidence_level = "High" := by
  rcases sorted with _ | ⟨h1, t⟩
  · simp at hres
    exact absurd hres hne
  · rcases topN with _ | n
    · simp at hres
      exact absurd hres hne
    · rw [List.take_succ_cons] at hres
      have hms : (if h1 :: t = [] then (0 : ℚ) else ((h1 :: t).headD ("", 0)).2)
          = h1.2 := by simp
      simp only [hms] at hres
      by_cases hpos : h1.2 > 0
      · rw [List.filterMap_cons_some (by rw [if_pos hpos])] at hres
        have hme : calcConfidence h1.2 h1.2 = 95 :=
          calcConfidence_self h1.2 (ne_of_gt hpos)
        rw [hres]
        simp only [List.headD_cons]
        rw [hme, pyRound_95, level_95]
        exact ⟨rfl, rfl⟩
      · rw [List.filterMap_cons_none (by rw [if_neg hpos])] at hres
        have hall : ∀ p ∈ t.take n, ¬ p.2 > 0 := by
          intro p hp
          have hmem : p ∈ t := List.take_subset n t hp
          have hle : p.2 ≤ h1.2 := (List.pairwise_cons.mp hsorted).1 p hmem
          intro hgt
          exact hpos (lt_of_lt_of_le hgt hle)
        have hnil : res = [] := by
          rw [hres]
          apply List.filterMap_eq_nil_iff.mpr
          intro a ha
          rw [if_neg (hall a ha)]
        exact absurd hnil hne

/-- C10.  Whenever `suggest_domains` returns a non-empty list, the
top-ranked suggestion has confidence exactly 95 and confidence level
`High`: the top candidate scores the maximum, its relative score is 100,
the `≥ 80` branch gives `85 + 0.5 × 20 = 95`, the clamp keeps it, and
rounding to one decimal leaves it unchanged. -/
theorem c10_top_suggestion (tax : List (String × ExamKW))
    (text exam : String) (topN : Nat)
    (h : suggestDomains tax text exam topN ≠ []) :
    ((suggestDomains tax text exam topN).headD ⟨"", 0, 0, ""⟩).confidence = 95
    ∧ ((suggestDomains tax text exam topN).headD ⟨"", 0, 0, ""⟩).confidence_level
        = "High" := by
  unfold suggestDomains at h ⊢
  split_ifs at h ⊢ with h1
  · exact absurd rfl h
  · simp only [ne_eq] at h ⊢
    split_ifs at h ⊢ with h2 h3
    · exact absurd rfl h
    · rw [h3] at h
      simp at h
    · exact suggestions_head_max
        (sortDesc (analyzeText text ((lookupExam tax exam).getD []))) topN
        (pairwise_sortDesc _) _ (by simp only [if_neg h3]) (by simpa using h)

/-- Witness for C10: one concrete suggester run that returns a non-empty
list, whose top suggestion the theorem then pins at confidence 95, level
High. -/
theorem c10_top_suggestion_witness :
    (suggestDomains taxW "use cloud now" "exam_w" 3 ≠ [])
    ∧ (((suggestDomains taxW "use cloud now" "exam_w" 3).headD
          ⟨"", 0, 0, ""⟩).confidence = 95
       ∧ ((suggestDomains taxW "use cloud now" "exam_w" 3).headD
            ⟨"", 0, 0, ""⟩).confidence_level = "High") := by
  have hscore : scoreKeyword (normalizeText "use cloud now") "cloud" = 13 / 10 := by
    have hsub : isSubstr ("cloud".toList.map Char.toLower)
        (normalizeText "use cloud now") = true := by decide
    have hcnt : pyCount ("cloud".toList.map Char.toLower)
        (normalizeText "use cloud now") = 1 := by decide
    have hsplit : pySplit ("cloud".toList.map Char.toLower) = ["cloud".toList] := by decide
    have hcont : ("cloud".toList.map Char.toLower).contains ' ' = false := by decide
    simp only [scoreKeyword, hsub, hcnt, hsplit, hcont, if_true]
    norm_num
  have hanal : analyzeText "use cloud now" [("Domain One", [("high_weight", ["cloud"])])]
      = [("Domain One", (39 : ℚ) / 10)] := by
    simp only [analyzeText, scoreKeywords, weightOf, List.map_cons, List.map_nil, hscore]
    norm_num
  have heq : suggestDomains taxW "use cloud now" "exam_w" 3
      = [⟨"Domain One", 39 / 10, 95, "High"⟩] := by
    have hlk : ((lookupExam taxW "exam_w").getD [])
        = [("Domain One", [("high_weight", ["cloud"])])] := by decide
    simp only [suggestDomains]
    rw [if_neg (by decide)]
    simp only [hlk, hanal]
    rw [if_neg (by decide)]
    have hsort : sortDesc [("Domain One", (39 : ℚ) / 10)]
        = [("Domain One", (39 : ℚ) / 10)] := rfl
    simp only [hsort]
    rw [if_neg (by decide)]
    have hpos : ((39 : ℚ) / 10) > 0 := by norm_num
    rw [List.take_succ_cons, List.take_nil,
      List.filterMap_cons_some (by rw [if_pos hpos]), List.filterMap_nil]
    have hconf : calcConfidence ((39 : ℚ) / 10) (([("Domain One", (39 : ℚ) / 10)].headD ("", 0)).2) = 95 := by
      have : (([("Domain One", (39 : ℚ) / 10)].headD ("", 0)).2) = (39 : ℚ) / 10 := rfl
      rw [this]
      exact calcConfidence_self _ (by norm_num)
    rw [hconf, pyRound_95, level_95, pyRound_eq_self ((39 : ℚ) / 10) 2 390 (by norm_num)]
  have hne : suggestDomains taxW "use cloud now" "exam_w" 3 ≠ [] := by
    rw [heq]
    simp
  exact ⟨hne, c10_top_suggestion taxW "use cloud now" "exam_w" 3 hne⟩

/-! ## Lemmas for the normalizer (C4) -/

theorem substr_nil_pat (l : List Char) : isSubstr [] l = true := by
  cases l <;> simp [isSubstr, pfx]

theorem pfx_append (p r t : List Char) (h : pfx p r = true) :
    pfx p (r ++ t) = true := by
  induction p generalizing r with
  | nil => rfl
  | cons a as ih =>
    rcases r with _ | ⟨b, bs⟩
    · simp [pfx] at h
    · rw [List.cons_append]
      rw [pfx] at h ⊢
      split_ifs at h ⊢ with hab
      exact ih bs h

theorem pfx_refl (p : List Char) : pfx p p = true := by
  induction p with
  | nil => rfl
  | cons a as ih => simp [pfx, ih]

theorem pfx_self_append (p t : List Char) : pfx p (p ++ t) = true :=
  pfx_append p p t (pfx_refl p)

theorem substr_of_pfx (pat l : List Char) (h : pfx pat l = true) :
    isSubstr pat l = true := by
  rcases l with _ | ⟨c, rest⟩
  · rcases pat with _ | ⟨a, as⟩
    · rfl
    · simp [pfx] at h
  · rw [isSubstr, h]
    rfl

theorem substr_cons (pat l : List Char) (c : Char)
    (h : isSubstr pat l = true) : isSubstr pat (c :: l) = true := by
  rw [isSubstr, h, Bool.or_true]

theorem substr_append_left (pat l1 l2 : List Char)
    (h : isSubstr pat l2 = true) : isSubstr pat (l1 ++ l2) = true := by
  induction l1 with
  | nil => exact h
  | cons c cs ih => exact substr_cons pat _ c ih

theorem substr_of_extension (pat r t l : List Char)
    (h : isSubstr pat r = true) (he : r ++ t = l) :
    isSubstr pat l = true := by
  induction r generalizing l with
  | nil =>
    rw [isSubstr, List.isEmpty_iff] at h
    subst h
    exact substr_nil_pat l
  | cons c rs ih =>
    rw [isSubstr] at h
    rcases Bool.or_eq_true_iff.mp h with h1 | h2
    · rw [← he]
      exact substr_of_pfx pat _ (pfx_append pat (c :: rs) t h1)
    · rw [← he, List.cons_append]
      exact substr_cons pat _ c (ih (rs ++ t) h2 rfl)

theorem substr_dropLeading (pat cs : List Char)
    (h : isSubstr pat (dropLeadingWS cs) = true) : isSubstr pat cs = true := by
  induction cs with
  | nil => exact h
  | cons c rest ih =>
    rw [dropLeadingWS, List.dropWhile_cons] at h
    split_ifs at h with hc
    · exact substr_cons pat rest c (ih h)
    · exact h

theorem dropTrailing_pre (l : List Char) : ∃ t, dropTrailingWS l ++ t = l := by
  induction l with
  | nil => exact ⟨[], rfl⟩
  | cons c rest ih =>
    rcases ih with ⟨t, ht⟩
    rw [dropTrailingWS]
    split_ifs with hc
    · exact ⟨c :: rest, rfl⟩
    · exact ⟨t, by rw [List.cons_append, ht]⟩

theorem substr_dropTrailing (pat cs : List Char)
    (h : isSubstr pat (dropTrailingWS cs) = true) : isSubstr pat cs = true := by
  rcases dropTrailing_pre cs with ⟨t, ht⟩
  exact substr_of_extension pat _ t cs h ht

theorem substr_pyStrip (pat cs : List Char)
    (h : isSubstr pat (pyStrip cs) = true) : isSubstr pat cs = true :=
  substr_dropLeading pat cs (substr_dropTrailing pat _ h)

theorem collapse_space_head (cs : List Char) (c : Char)
    (hc : isPySpace c = true) :
    ∃ l2, collapseWS (c :: cs) = ' ' :: l2 := by
  induction cs generalizing c with
  | nil => exact ⟨[], by rw [collapseWS, if_pos hc]⟩
  | cons d rest ih =>
    rw [collapseWS, if_pos hc]
    split_ifs with hd
    · exact ih d hd
    · exact ⟨collapseWS (d :: rest), rfl⟩

theorem collapse_nonspace_head (c : Char) (cs : List Char)
    (hc : isPySpace c = false) :
    ∃ l2, collapseWS (c :: cs) = c :: l2
      ∧ l2 = (match cs with | [] => [] | d :: rest => collapseWS (d :: rest)) := by
  rcases cs with _ | ⟨d, rest⟩
  · exact ⟨[], by rw [collapseWS, if_neg (by simp [hc])], rfl⟩
  · exact ⟨collapseWS (d :: rest), by rw [collapseWS, if_neg (by simp [hc])], rfl⟩

theorem pfx_collapse (pat cs : List Char)
    (hpat : pat.all (fun c => !isPySpace c) = true)
    (h : pfx pat (collapseWS cs) = true) : pfx pat cs = true := by
  induction cs generalizing pat with
  | nil =>
    rcases pat with _ | ⟨a, as⟩
    · rfl
    · rw [show collapseWS [] = [] from rfl] at h
      simp [pfx] at h
  | cons c rest ih =>
    rcases pat with _ | ⟨a, as⟩
    · rfl
    · simp only [List.all_cons, Bool.and_eq_true] at hpat
      by_cases hc : isPySpace c = true
      · rcases collapse_space_head rest c hc with ⟨l2, hl2⟩
        rw [hl2, pfx] at h
        split_ifs at h with ha
        rw [ha] at hpat
        simp [isPySpace] at hpat
      · rcases collapse_nonspace_head c rest (by simpa using hc) with ⟨l2, hl2, hl2d⟩
        rw [hl2, pfx] at h
        split_ifs at h with ha
        rw [pfx, if_pos ha]
        rcases rest with _ | ⟨d, rest2⟩
        · rw [hl2d] at h
          rcases as with _ | _
          · rfl
          · simp [pfx] at h
        · rw [hl2d] at h
          exact ih as hpat.2 h

theorem substr_collapse (pat cs : List Char)
    (hpat : pat.all (fun c => !isPySpace c) = true)
    (h : isSubstr pat (collapseWS cs) = true) : isSubstr pat cs = true := by
  induction cs with
  | nil => exact h
  | cons c rest ih =>
    rcases rest with _ | ⟨d, rest2⟩
    · by_cases hc : isPySpace c = true
      · rw [show collapseWS [c] = [' '] from by rw [collapseWS, if_pos hc]] at h
        rw [isSubstr, Bool.or_eq_true] at h
        rcases h with h1 | h2
        · rcases pat with _ | ⟨a, as⟩
          · exact substr_nil_pat [c]
          · rw [pfx] at h1
            split_ifs at h1 with ha
            simp only [List.all_cons, Bool.and_eq_true] at hpat
            rw [ha] at hpat
            simp [isPySpace] at hpat
        · rw [isSubstr] at h2
          rw [isSubstr, Bool.or_eq_true]
          right
          exact h2
      · rw [show collapseWS [c] = [c] from by
          rw [collapseWS, if_neg (by simp [hc])]] at h
        exact h
    · rw [collapseWS] at h
      split_ifs at h with hc hd
      · -- c space, d space: collapse (c::d::rest2) = collapse (d::rest2)
        exact substr_cons pat _ c (ih h)
      · -- c space, d non-space: ' ' :: collapse (d::rest2)
        rw [isSubstr, Bool.or_eq_true] at h
        rcases h with h1 | h2
        · rcases pat with _ | ⟨a, as⟩
          · exact substr_nil_pat _
          · rw [pfx] at h1
            split_ifs at h1 with ha
            simp only [List.all_cons, Bool.and_eq_true] at hpat
            rw [ha] at hpat
            simp [isPySpace] at hpat
        · exact substr_cons pat _ c (ih h2)
      · -- c non-space: c :: collapse (d::rest2)
        rw [isSubstr, Bool.or_eq_true] at h
        rcases h with h1 | h2
        · rcases pat with _ | ⟨a, as⟩
          · exact substr_nil_pat _
          · rw [pfx] at h1
            split_ifs at h1 with ha
            simp only [List.all_cons, Bool.and_eq_true] at hpat
            have has : pfx as (d :: rest2) = true :=
              pfx_collapse as (d :: rest2) hpat.2 h1
            rw [isSubstr, Bool.or_eq_true]
            left
            rw [pfx, if_pos ha]
            exact has
        · exact substr_cons pat _ c (ih h2)

theorem isCollapsed_cons (c : Char) (x : Char) (l : List Char) :
    isCollapsed (c :: x :: l)
      = ((!isPySpace c || (c = ' ' && !isPySpace x)) && isCollapsed (x :: l)) := rfl

theorem isCollapsed_collapse (cs : List Char) :
    isCollapsed (collapseWS cs) = true := by
  induction cs with
  | nil => rfl
  | cons c rest ih =>
    rcases rest with _ | ⟨d, rest2⟩
    · by_cases hc : isPySpace c = true
      · rw [show collapseWS [c] = [' '] from by rw [collapseWS, if_pos hc]]
        rfl
      · rw [show collapseWS [c] = [c] from by
          rw [collapseWS, if_neg (by simp [hc])]]
        rw [isCollapsed]
        simp [hc]
    · rw [collapseWS]
      split_ifs with hc hd
      · exact ih
      · have hd2 : isPySpace d = false := by simpa using hd
        rcases collapse_nonspace_head d rest2 hd2 with ⟨l2, hl2, _⟩
        rw [hl2] at ih ⊢
        rw [isCollapsed_cons, ih]
        simp [hd2]
      · rcases hx : collapseWS (d :: rest2) with _ | ⟨x, l2⟩
        · rw [isCollapsed]
          simp [hc]
        · rw [hx] at ih
          rw [isCollapsed_cons, ih]
          simp [hc]

theorem collapse_of_isCollapsed (cs : List Char)
    (h : isCollapsed cs = true) : collapseWS cs = cs := by
  induction cs with
  | nil => rfl
  | cons c rest ih =>
    rcases rest with _ | ⟨d, rest2⟩
    · rw [isCollapsed] at h
      by_cases hc : isPySpace c = true
      · have hsp : c = ' ' := by
          rcases Bool.or_eq_true_iff.mp h with h1 | h2
          · rw [hc] at h1; simp at h1
          · simpa using h2
        rw [collapseWS, if_pos hc, hsp]
      · rw [collapseWS, if_neg (by simp [hc])]
    · rw [isCollapsed_cons, Bool.and_eq_true] at h
      have ih2 := ih h.2
      by_cases hc : isPySpace c = true
      · have hsp : c = ' ' ∧ isPySpace d = false := by
          rcases Bool.or_eq_true_iff.mp h.1 with h1 | h2
          · rw [hc] at h1; simp at h1
          · simpa using h2
        rw [collapseWS, if_pos hc, if_neg (by simp [hsp.2]), ih2, hsp.1]
      · rw [collapseWS, if_neg (by simp [hc]), ih2]

theorem collapse_idem (cs : List Char) :
    collapseWS (collapseWS cs) = collapseWS cs :=
  collapse_of_isCollapsed _ (isCollapsed_collapse cs)

theorem lastNonSpace_cons2 (c x : Char) (xs : List Char) :
    lastNonSpace (c :: x :: xs) = lastNonSpace (x :: xs) := rfl

theorem dropTrailing_lastNonSpace (l : List Char) :
    lastNonSpace (dropTrailingWS l) = true := by
  induction l with
  | nil => rfl
  | cons c rest ih =>
    rw [dropTrailingWS]
    split_ifs with hc
    · rfl
    · rcases hr : dropTrailingWS rest with _ | ⟨x, xs⟩
      · have hcs : isPySpace c = false := by
          simp [hr] at hc
          simpa using hc
        show (!isPySpace c) = true
        simp [hcs]
      · rw [hr] at ih
        rw [lastNonSpace_cons2]
        exact ih

theorem dropTrailing_of_lastNonSpace (l : List Char)
    (h : lastNonSpace l = true) : dropTrailingWS l = l := by
  induction l with
  | nil => rfl
  | cons c rest ih =>
    rcases rest with _ | ⟨d, rest2⟩
    · have hcs : isPySpace c = false := by
        have h2 : (!isPySpace c) = true := h
        simpa using h2
      rw [dropTrailingWS]
      rw [show dropTrailingWS [] = [] from rfl]
      rw [if_neg (by simp [hcs])]
    · rw [lastNonSpace_cons2] at h
      have ih2 := ih h
      rw [dropTrailingWS, ih2, if_neg (by simp)]

theorem collapse_lastNonSpace (cs : List Char)
    (h : lastNonSpace cs = true) : lastNonSpace (collapseWS cs) = true := by
  induction cs with
  | nil => rfl
  | cons c rest ih =>
    rcases rest with _ | ⟨d, rest2⟩
    · have hcs : isPySpace c = false := by
        have h2 : (!isPySpace c) = true := h
        simpa using h2
      rw [show collapseWS [c] = [c] from by rw [collapseWS, if_neg (by simp [hcs])]]
      exact h
    · rw [lastNonSpace_cons2] at h
      have ih2 := ih h
      rw [collapseWS]
      split_ifs with hc hd
      · exact ih2
      · rcases collapse_nonspace_head d rest2 (by simpa using hd) with ⟨l2, hl2, _⟩
        rw [hl2] at ih2 ⊢
        rw [lastNonSpace_cons2]
        exact ih2
      · rcases hx : collapseWS (d :: rest2) with _ | ⟨x, xs⟩
        · exact absurd hx (by
            by_cases hd2 : isPySpace d = true
            · rcases collapse_space_head rest2 d hd2 with ⟨l2, hl2⟩
              rw [hl2]
              simp
            · rcases collapse_nonspace_head d rest2 (by simpa using hd2) with ⟨l2, hl2, _⟩
              rw [hl2]
              simp)
        · rw [hx] at ih2
          rw [lastNonSpace_cons2]
          exact ih2



theorem dropLeading_head (cs : List Char) :
    dropLeadingWS cs = [] ∨ ∃ c l, dropLeadingWS cs = c :: l ∧ isPySpace c = false := by
  induction cs with
  | nil => exact Or.inl rfl
  | cons c rest ih =>
    rw [dropLeadingWS, List.dropWhile_cons]
    split_ifs with hc
    · exact ih
    · exact Or.inr ⟨c, rest, rfl, by simpa using hc⟩

theorem pyStrip_head (cs : List Char) :
    pyStrip cs = [] ∨ ∃ c l, pyStrip cs = c :: l ∧ isPySpace c = false := by
  rcases dropLeading_head cs with h | ⟨c, l, hcl, hc⟩
  · exact Or.inl (by rw [pyStrip, h]; rfl)
  · rw [pyStrip, hcl, dropTrailingWS]
    split_ifs with h2
    · exact Or.inl rfl
    · exact Or.inr ⟨c, _, rfl, hc⟩

theorem pyStrip_fix (cs : List Char) :
    pyStrip (collapseWS (pyStrip cs)) = collapseWS (pyStrip cs) := by
  have hlast0 : lastNonSpace (pyStrip cs) = true := dropTrailing_lastNonSpace _
  have hlast : lastNonSpace (collapseWS (pyStrip cs)) = true :=
    collapse_lastNonSpace _ hlast0
  have h2 : dropTrailingWS (collapseWS (pyStrip cs)) = collapseWS (pyStrip cs) :=
    dropTrailing_of_lastNonSpace _ hlast
  have h1 : dropLeadingWS (collapseWS (pyStrip cs)) = collapseWS (pyStrip cs) := by
    rcases pyStrip_head cs with h | ⟨c, l, hcl, hc⟩
    · rw [h]; rfl
    · rw [hcl]
      rcases collapse_nonspace_head c l hc with ⟨l2, hl2, _⟩
      rw [hl2, dropLeadingWS, List.dropWhile_cons, if_neg (by simp [hc])]
  show dropTrailingWS (dropLeadingWS _) = _
  rw [h1, h2]

theorem rnb_keep (l pend rem : List Char)
    (hsplit : pend ++ rem = nbspL) (hrem : rem ≠ [])
    (h : isSubstr nbspL (pend ++ l) = false) :
    rnbAux pend rem l = pend ++ l := by
  induction l generalizing pend rem with
  | nil => rw [rnbAux, List.append_nil]
  | cons c rest ih =>
    rcases rem with _ | ⟨r, rem2⟩
    · exact absurd rfl hrem
    · rw [rnbAux]
      by_cases hc : c = r
      · rw [if_pos hc]
        rcases hrem2 : rem2 with _ | ⟨r2, rem3⟩
        · exfalso
          have hfull : pend ++ [c] = nbspL := by
            rw [hc, ← hsplit, hrem2]
          have hpfx : pfx nbspL (pend ++ c :: rest) = true := by
            rw [show pend ++ c :: rest = (pend ++ [c]) ++ rest from by simp]
            rw [hfull]
            exact pfx_self_append nbspL rest
          rw [substr_of_pfx nbspL _ hpfx] at h
          exact Bool.noConfusion h
        · rw [if_neg (by simp)]
          have hsplit2 : (pend ++ [c]) ++ (r2 :: rem3) = nbspL := by
            rw [List.append_assoc, hc, ← hrem2]
            exact hsplit
          have h2 : isSubstr nbspL ((pend ++ [c]) ++ rest) = false := by
            rw [show (pend ++ [c]) ++ rest = pend ++ c :: rest from by simp]
            exact h
          rw [ih (pend ++ [c]) (r2 :: rem3) hsplit2 (by simp) h2]
          simp
      · rw [if_neg hc]
        by_cases hamp : c = '&'
        · rw [if_pos hamp]
          have hsub : isSubstr nbspL ('&' :: rest) = false := by
            rcases hs : isSubstr nbspL ('&' :: rest) with _ | _
            · rfl
            · exfalso
              have := substr_append_left nbspL pend ('&' :: rest) hs
              rw [hamp] at h
              rw [this] at h
              simp at h
          have := ih ['&'] ['n', 'b', 's', 'p', ';'] rfl (by simp) (by simpa using hsub)
          rw [this, hamp]
          simp
        · rw [if_neg hamp]
          have hsub : isSubstr nbspL rest = false := by
            rcases hs : isSubstr nbspL rest with _ | _
            · rfl
            · exfalso
              have h1 := substr_cons nbspL rest c hs
              have h2 := substr_append_left nbspL pend (c :: rest) h1
              rw [h2] at h
              simp at h
          rw [ih [] nbspL (by simp [nbspL]) (by simp [nbspL]) (by simpa using hsub)]
          simp

theorem replaceNbsp_id (l : List Char)
    (h : isSubstr nbspL l = false) : replaceNbsp l = l := by
  rw [replaceNbsp]
  have := rnb_keep l [] nbspL rfl (by simp [nbspL]) (by simpa using h)
  simpa using this

/-- Counterexample to C4 as stated: `clean_text` is not idempotent — for
the input `"&nbsp;"` one application yields `" "` and a second yields
`""`. -/
theorem c4_counterexample_nbsp :
    cleanText (cleanText "&nbsp;") ≠ cleanText "&nbsp;"
    ∧ cleanText "&nbsp;" = " " ∧ cleanText (cleanText "&nbsp;") = "" := by
  refine ⟨by decide, by decide, by decide⟩

/-- C4 as amended: the normalizer is idempotent on every input that does
not contain the literal `&nbsp;` entity (the entity is replaced only after
whitespace is collapsed and stripped, so entity-derived spaces survive a
first pass), and empty or null input yields the empty string without
error. -/
theorem c4_amended_normalizer (t : String)
    (h : isSubstr nbspL t.toList = false) :
    cleanText (cleanText t) = cleanText t
    ∧ cleanText "" = ""
    ∧ cleanTextOpt none = "" := by
  have hempty : cleanText "" = "" := by rw [cleanText, if_pos rfl]
  refine ⟨?_, hempty, rfl⟩
  by_cases ht : t = ""
  · rw [ht, hempty, hempty]
  · have hnb : isSubstr nbspL (collapseWS (pyStrip t.toList)) = false := by
      rcases hs : isSubstr nbspL (collapseWS (pyStrip t.toList)) with _ | _
      · rfl
      · exfalso
        have h1 := substr_collapse nbspL _ (by decide) hs
        have h2 := substr_pyStrip nbspL _ h1
        rw [h2] at h
        exact Bool.noConfusion h
    have hrepl : replaceNbsp (collapseWS (pyStrip t.toList))
        = collapseWS (pyStrip t.toList) := replaceNbsp_id _ hnb
    have hr : cleanText t = (collapseWS (pyStrip t.toList)).asString := by
      rw [cleanText, if_neg ht, hrepl]
    rw [hr]
    by_cases hre : (collapseWS (pyStrip t.toList)).asString = ""
    · rw [hre, hempty]
    · rw [cleanText, if_neg hre, toList_asString, pyStrip_fix, collapse_idem, hrepl]

/-- Witness for C4 (amended) at a concrete entity-free input. -/
theorem c4_amended_normalizer_witness :
    (isSubstr nbspL "  mixed   spacing text ".toList = false)
    ∧ (cleanText (cleanText "  mixed   spacing text ")
        = cleanText "  mixed   spacing text "
       ∧ cleanText "" = "" ∧ cleanTextOpt none = "") :=
  ⟨by decide, c4_amended_normalizer "  mixed   spacing text " (by decide)⟩
